import Mathlib

/-!
Verification of the Rack patch-graph core (src/include/app.hpp and its
specification).  The header declares the patch-graph model (`ModuleWidget`,
`WireWidget`, `Port`, `RackWidget`), the connection drag controller, the
patch serializer and the parameter switches.  The implementations of the
graph, controller and serializer operations are not part of the extracted
sources (only their declarations in app.hpp are), so those operations are
modelled from the specification; the switch handlers (`ToggleSwitch`,
`ModeSwitch`) are inline in app.hpp and are embedded directly.
-/

namespace Rack

/-- Port direction, from `Port::PortType` (app.hpp, enum with INPUT/OUTPUT). -/
inductive PortDir where
  | input
  | output
deriving DecidableEq, Repr

/-- A reference to one terminal: owning module (runtime id), local port id and
direction.  Models `Port` (app.hpp lines 231-254) at the identity level. -/
structure PortRef where
  module : Nat
  portId : Nat
  dir : PortDir
deriving DecidableEq, Repr

/-- A committed wire: output endpoint, input endpoint, a display color and a
stable identifier.  Models `Wire`/`WireWidget` (app.hpp lines 57-71). -/
structure Wire where
  wireId : Nat
  outputModule : Nat
  outputId : Nat
  inputModule : Nat
  inputId : Nat
  color : String
deriving DecidableEq, Repr

/-- A module instance: descriptor identity, grid position, parameter values,
module-local document payload and declared port counts.  Models
`ModuleWidget` (app.hpp lines 24-55) plus its `Model` descriptor. -/
structure Module where
  plugin : String
  modelName : String
  x : Int
  y : Int
  params : List Int
  payload : String
  numInputs : Nat
  numOutputs : Nat
deriving DecidableEq, Repr

/-- Modelled from the spec: the PatchGraph owned by `RackWidget` (app.hpp
lines 73-94; `RackWidget::toJson/fromJson/clear` bodies are not in src/).
Modules and committed wires in insertion order, plus fresh-id counters. -/
structure PatchGraph where
  modules : List (Nat × Module)
  wires : List Wire
  nextModuleId : Nat
  nextWireId : Nat
deriving DecidableEq, Repr

/-- The empty rack (fresh `RackWidget`). -/
def emptyGraph : PatchGraph :=
  { modules := [], wires := [], nextModuleId := 0, nextWireId := 0 }

/-- Does wire `w` target input terminal (`m`, `pid`)? -/
def wireTargetsInput (w : Wire) (m pid : Nat) : Bool :=
  w.inputModule == m && w.inputId == pid

/-- Does wire `w` target the input terminal referenced by `p`? -/
def wireTargets (w : Wire) (p : PortRef) : Bool :=
  wireTargetsInput w p.module p.portId

/-- Does wire `w` start at the output terminal referenced by `p`? -/
def wireSources (w : Wire) (p : PortRef) : Bool :=
  w.outputModule == p.module && w.outputId == p.portId

/-- Does wire `w` touch any port of module `mid`? -/
def wireTouchesModule (w : Wire) (mid : Nat) : Bool :=
  w.outputModule == mid || w.inputModule == mid

/-- Error taxonomy of the spec (§7). -/
inductive GraphErr where
  | typeMismatch
  | unknownWire
  | unknownModule
deriving DecidableEq, Repr

/-- Modelled from the spec: `connect(outputPort, inputPort)` (§4.1; the body
behind `Port::onDragDrop`, app.hpp line 251, is not in src/).  Fails with
`typeMismatch` unless the ports are one output and one input; if the input
already has a committed wire that wire is silently removed first
(replace-on-connect); the new wire is appended with a fresh identifier. -/
def connect (g : PatchGraph) (o i : PortRef) (color : String) :
    Except GraphErr (PatchGraph × Nat) :=
  if o.dir = PortDir.output ∧ i.dir = PortDir.input then
    let kept := g.wires.filter (fun w => !(wireTargetsInput w i.module i.portId))
    let wid := g.nextWireId
    let nw : Wire :=
      { wireId := wid, outputModule := o.module, outputId := o.portId,
        inputModule := i.module, inputId := i.portId, color := color }
    Except.ok ({ g with wires := kept ++ [nw], nextWireId := wid + 1 }, wid)
  else
    Except.error GraphErr.typeMismatch

/-- Modelled from the spec: `disconnect(wireId)` (§4.1; the body behind
`Port::disconnect`, app.hpp line 245, is not in src/).  Removes the wire
with that id; error if unknown. -/
def disconnect (g : PatchGraph) (wid : Nat) : Except GraphErr PatchGraph :=
  if g.wires.any (fun w => w.wireId == wid) then
    Except.ok { g with wires := g.wires.filter (fun w => !(w.wireId == wid)) }
  else
    Except.error GraphErr.unknownWire

/-- Modelled from the spec: `removeModule(id)` (§4.1; the bodies behind
`ModuleWidget::~ModuleWidget` and `ModuleWidget::disconnectPorts`, app.hpp
lines 33 and 42, are not in src/).  Disconnects every wire touching the
module's ports, then removes the module. -/
def removeModule (g : PatchGraph) (mid : Nat) : Except GraphErr PatchGraph :=
  if g.modules.any (fun p => p.1 == mid) then
    Except.ok { g with
      modules := g.modules.filter (fun p => !(p.1 == mid)),
      wires := g.wires.filter (fun w => !(wireTouchesModule w mid)) }
  else
    Except.error GraphErr.unknownModule

/-- A `connect`/`disconnect` call, for reasoning over call sequences. -/
inductive Op where
  | connect (o i : PortRef) (color : String)
  | disconnect (wid : Nat)
deriving DecidableEq, Repr

/-- Apply one call; a failed call leaves the graph unchanged (errors are
returned to the caller, spec §7). -/
def applyOp (g : PatchGraph) : Op → PatchGraph
  | Op.connect o i c =>
    match connect g o i c with
    | Except.ok (g', _) => g'
    | Except.error _ => g
  | Op.disconnect wid =>
    match disconnect g wid with
    | Except.ok g' => g'
    | Except.error _ => g

/-- Run a sequence of calls from a starting graph. -/
def runOps (g : PatchGraph) (ops : List Op) : PatchGraph :=
  ops.foldl applyOp g

/-- The one-wire-per-input invariant: every input terminal is targeted by at
most one committed wire. -/
def InputUnique (ws : List Wire) : Prop :=
  ∀ m pid, (ws.countP (fun w => wireTargetsInput w m pid)) ≤ 1

/-- Every committed wire's identifier is below the fresh-id counter. -/
def WireIdsFresh (g : PatchGraph) : Prop :=
  ∀ w ∈ g.wires, w.wireId < g.nextWireId

/-- The wire committed by a successful `connect` call. -/
def newWire (g : PatchGraph) (o i : PortRef) (color : String) : Wire :=
  { wireId := g.nextWireId, outputModule := o.module, outputId := o.portId,
    inputModule := i.module, inputId := i.portId, color := color }

theorem wireTargetsInput_iff (w : Wire) (m pid : Nat) :
    wireTargetsInput w m pid = true ↔ w.inputModule = m ∧ w.inputId = pid := by
  simp [wireTargetsInput]

theorem connect_ok_elim {g g' : PatchGraph} {o i : PortRef} {c : String} {wid : Nat}
    (hok : connect g o i c = Except.ok (g', wid)) :
    o.dir = PortDir.output ∧ i.dir = PortDir.input ∧ wid = g.nextWireId ∧
    g'.wires = g.wires.filter (fun w => !(wireTargetsInput w i.module i.portId))
      ++ [newWire g o i c] ∧
    g'.nextWireId = g.nextWireId + 1 ∧ g'.modules = g.modules := by
  unfold connect at hok
  split at hok
  · next h =>
    simp only [Except.ok.injEq, Prod.mk.injEq] at hok
    obtain ⟨hg, hw⟩ := hok
    subst hg
    exact ⟨h.1, h.2, hw.symm, rfl, rfl, rfl⟩
  · exact absurd hok (by simp)

theorem connect_inputUnique {g g' : PatchGraph} {o i : PortRef} {c : String} {wid : Nat}
    (hu : InputUnique g.wires) (hok : connect g o i c = Except.ok (g', wid)) :
    InputUnique g'.wires := by
  obtain ⟨-, -, -, hw, -, -⟩ := connect_ok_elim hok
  intro m pid
  rw [hw, List.countP_append]
  by_cases htarget : i.module = m ∧ i.portId = pid
  · have h0 : (g.wires.filter
        (fun w => !(wireTargetsInput w i.module i.portId))).countP
        (fun w => wireTargetsInput w m pid) = 0 := by
      rw [List.countP_eq_zero]
      intro w hwmem
      have := (List.mem_filter.mp hwmem).2
      simp only [Bool.not_eq_true'] at this
      rw [htarget.1, htarget.2] at this
      simp [this]
    rw [h0]
    have : ([newWire g o i c].countP (fun w => wireTargetsInput w m pid)) ≤ 1 :=
      List.countP_le_length _
    omega
  · have h1 : ([newWire g o i c].countP (fun w => wireTargetsInput w m pid)) = 0 := by
      rw [List.countP_eq_zero]
      intro w hwmem
      simp only [List.mem_singleton] at hwmem
      subst hwmem
      intro hc
      rw [wireTargetsInput_iff] at hc
      exact htarget ⟨hc.1, hc.2⟩
    rw [h1]
    have h2 : (g.wires.filter
        (fun w => !(wireTargetsInput w i.module i.portId))).countP
        (fun w => wireTargetsInput w m pid) ≤
        g.wires.countP (fun w => wireTargetsInput w m pid) := by
      rw [List.countP_filter]
      exact List.countP_mono_left (by intro x _ hx; exact (Bool.and_elim_left hx))
    have := hu m pid
    omega

theorem filter_inputUnique {ws : List Wire} (p : Wire → Bool)
    (hu : InputUnique ws) : InputUnique (ws.filter p) := by
  intro m pid
  calc (ws.filter p).countP (fun w => wireTargetsInput w m pid)
      ≤ ws.countP (fun w => wireTargetsInput w m pid) := by
        rw [List.countP_filter]
        exact List.countP_mono_left (by intro x _ hx; exact (Bool.and_elim_left hx))
    _ ≤ 1 := hu m pid

theorem applyOp_inputUnique {g : PatchGraph} (op : Op)
    (hu : InputUnique g.wires) : InputUnique (applyOp g op).wires := by
  cases op with
  | connect o i c =>
    cases hok : connect g o i c with
    | ok gw =>
      obtain ⟨g', wid⟩ := gw
      have heq : applyOp g (Op.connect o i c) = g' := by simp [applyOp, hok]
      rw [heq]
      exact connect_inputUnique hu hok
    | error e =>
      have heq : applyOp g (Op.connect o i c) = g := by simp [applyOp, hok]
      rw [heq]
      exact hu
  | disconnect wid =>
    by_cases h : (g.wires.any fun w => w.wireId == wid) = true
    · have heq : applyOp g (Op.disconnect wid) =
          { g with wires := g.wires.filter (fun w => !(w.wireId == wid)) } := by
        simp [applyOp, disconnect, h]
      rw [heq]
      exact filter_inputUnique _ hu
    · have heq : applyOp g (Op.disconnect wid) = g := by
        simp [applyOp, disconnect, h]
      rw [heq]
      exact hu

theorem runOps_inputUnique {g : PatchGraph} (ops : List Op)
    (hu : InputUnique g.wires) : InputUnique (runOps g ops).wires := by
  induction ops generalizing g with
  | nil => exact hu
  | cons op ops ih => exact ih (applyOp_inputUnique op hu)

theorem connect_wireIdsFresh {g g' : PatchGraph} {o i : PortRef} {c : String} {wid : Nat}
    (hf : WireIdsFresh g) (hok : connect g o i c = Except.ok (g', wid)) :
    WireIdsFresh g' := by
  obtain ⟨-, -, -, hw, hn, -⟩ := connect_ok_elim hok
  intro w hwmem
  rw [hw] at hwmem
  rw [hn]
  rcases List.mem_append.mp hwmem with h | h
  · have := hf w (List.mem_filter.mp h).1
    omega
  · simp only [List.mem_singleton] at h
    subst h
    simp [newWire]

theorem applyOp_wireIdsFresh {g : PatchGraph} (op : Op)
    (hf : WireIdsFresh g) : WireIdsFresh (applyOp g op) := by
  cases op with
  | connect o i c =>
    cases hok : connect g o i c with
    | ok gw =>
      obtain ⟨g', wid⟩ := gw
      have heq : applyOp g (Op.connect o i c) = g' := by simp [applyOp, hok]
      rw [heq]
      exact connect_wireIdsFresh hf hok
    | error e =>
      have heq : applyOp g (Op.connect o i c) = g := by simp [applyOp, hok]
      rw [heq]
      exact hf
  | disconnect wid =>
    by_cases h : (g.wires.any fun w => w.wireId == wid) = true
    · have heq : applyOp g (Op.disconnect wid) =
          { g with wires := g.wires.filter (fun w => !(w.wireId == wid)) } := by
        simp [applyOp, disconnect, h]
      rw [heq]
      intro w hwmem
      exact hf w (List.mem_filter.mp hwmem).1
    · have heq : applyOp g (Op.disconnect wid) = g := by
        simp [applyOp, disconnect, h]
      rw [heq]
      exact hf

theorem runOps_wireIdsFresh {g : PatchGraph} (ops : List Op)
    (hf : WireIdsFresh g) : WireIdsFresh (runOps g ops) := by
  induction ops generalizing g with
  | nil => exact hf
  | cons op ops ih => exact ih (applyOp_wireIdsFresh op hf)

/-- C1: for every sequence of `connect`/`disconnect` calls on the patch
graph, at every observation point each input port is the target of at most
one committed wire. -/
theorem claim1_input_port_at_most_one_wire (ops : List Op) :
    InputUnique (runOps emptyGraph ops).wires :=
  runOps_inputUnique ops (by intro m pid; simp [emptyGraph])

/-- C2: connecting output `o` to input `i` while `i` already holds committed
wire `w` removes `w`, commits a new wire from `o` to `i`, and returns a
fresh identifier never equal to `w`'s identifier.  Stated for every graph
reachable by `connect`/`disconnect` calls from the empty rack. -/
theorem claim2_replace_on_connect_fresh_id (ops : List Op) (o i : PortRef)
    (c : String) (w : Wire) (g' : PatchGraph) (wid : Nat)
    (hw : w ∈ (runOps emptyGraph ops).wires)
    (ht : wireTargetsInput w i.module i.portId = true)
    (hok : connect (runOps emptyGraph ops) o i c = Except.ok (g', wid)) :
    w ∉ g'.wires ∧ newWire (runOps emptyGraph ops) o i c ∈ g'.wires ∧
    wid ≠ w.wireId := by
  obtain ⟨-, -, hwid, hws, -, -⟩ := connect_ok_elim hok
  have hf : WireIdsFresh (runOps emptyGraph ops) :=
    runOps_wireIdsFresh ops (by intro x hx; simp [emptyGraph] at hx)
  refine ⟨?_, ?_, ?_⟩
  · rw [hws]
    intro hmem
    rcases List.mem_append.mp hmem with h | h
    · have := (List.mem_filter.mp h).2
      rw [ht] at this
      simp at this
    · simp only [List.mem_singleton] at h
      have := hf w hw
      rw [h] at this
      simp [newWire] at this
  · rw [hws]
    exact List.mem_append.mpr (Or.inr (List.mem_singleton.mpr rfl))
  · have := hf w hw
    omega

/-- C2 witness: starting from one committed wire into input (1,0), a second
`connect` onto the same input replaces it with a fresh identifier. -/
theorem claim2_witness :
    let outP : PortRef := ⟨0, 0, PortDir.output⟩
    let inP : PortRef := ⟨1, 0, PortDir.input⟩
    let ops := [Op.connect outP inP "#f00"]
    let g := runOps emptyGraph ops
    ∃ w g' wid, w ∈ g.wires ∧ wireTargetsInput w inP.module inP.portId = true ∧
      connect g outP inP "#0f0" = Except.ok (g', wid) ∧
      (w ∉ g'.wires ∧ newWire g outP inP "#0f0" ∈ g'.wires ∧ wid ≠ w.wireId) := by
  intro outP inP ops g
  refine ⟨⟨0, 0, 0, 1, 0, "#f00"⟩, _, _, by decide, by decide, rfl, ?_⟩
  exact claim2_replace_on_connect_fresh_id ops outP inP "#0f0" _ _ _
    (by decide) (by decide) rfl

/-- C3: an output port may feed several committed wires at once: a
successful `connect` from output `o` to an input other than the one wire
`w` targets leaves `w` (already fed by `o`) untouched, so `o` then feeds
both `w` and the new wire. -/
theorem claim3_output_fans_out (g g' : PatchGraph) (o i : PortRef)
    (c : String) (w : Wire) (wid : Nat)
    (hw : w ∈ g.wires)
    (_hsrc : wireSources w o = true)
    (hne : wireTargetsInput w i.module i.portId = false)
    (hok : connect g o i c = Except.ok (g', wid)) :
    w ∈ g'.wires ∧ newWire g o i c ∈ g'.wires ∧
    wireSources (newWire g o i c) o = true := by
  obtain ⟨-, -, -, hws, -, -⟩ := connect_ok_elim hok
  refine ⟨?_, ?_, ?_⟩
  · rw [hws]
    refine List.mem_append.mpr (Or.inl (List.mem_filter.mpr ⟨hw, ?_⟩))
    simp [hne]
  · rw [hws]
    exact List.mem_append.mpr (Or.inr (List.mem_singleton.mpr rfl))
  · simp [wireSources, newWire]

/-- C3 witness: after `connect` a second wire from output (0,0) to a second
input, the first wire is still committed. -/
theorem claim3_witness :
    let outP : PortRef := ⟨0, 0, PortDir.output⟩
    let i1 : PortRef := ⟨1, 0, PortDir.input⟩
    let i2 : PortRef := ⟨2, 0, PortDir.input⟩
    let g := runOps emptyGraph [Op.connect outP i1 "#f00"]
    ∃ w g' wid, w ∈ g.wires ∧ wireSources w outP = true ∧
      wireTargetsInput w i2.module i2.portId = false ∧
      connect g outP i2 "#0f0" = Except.ok (g', wid) ∧
      (w ∈ g'.wires ∧ newWire g outP i2 "#0f0" ∈ g'.wires ∧
        wireSources (newWire g outP i2 "#0f0") outP = true) := by
  intro outP i1 i2 g
  refine ⟨⟨0, 0, 0, 1, 0, "#f00"⟩, _, _, by decide, by decide, by decide, rfl, ?_⟩
  exact claim3_output_fans_out g _ outP i2 "#0f0" _ _ (by decide) (by decide)
    (by decide) rfl

/-- C7: removing module `mid` removes exactly the committed wires touching a
port of `mid`: a wire survives the removal iff it was committed before and
touches no port of `mid`. -/
theorem claim7_remove_module_exact_frame (g g' : PatchGraph) (mid : Nat)
    (hok : removeModule g mid = Except.ok g') :
    ∀ w : Wire, w ∈ g'.wires ↔ (w ∈ g.wires ∧ wireTouchesModule w mid = false) := by
  unfold removeModule at hok
  split at hok
  · simp only [Except.ok.injEq] at hok
    subst hok
    intro w
    constructor
    · intro hmem
      have h := List.mem_filter.mp hmem
      exact ⟨h.1, by simpa using h.2⟩
    · intro ⟨hmem, hnt⟩
      exact List.mem_filter.mpr ⟨hmem, by simp [hnt]⟩
  · exact absurd hok (by simp)

/-- C7 witness: removing module 1 from a rack with wires 0→1 and 0→2 deletes
the wire into module 1 and keeps the wire into module 2. -/
theorem claim7_witness :
    let g : PatchGraph :=
      { modules := [(0, ⟨"core", "osc", 0, 0, [], "", 0, 1⟩),
                    (1, ⟨"core", "amp", 1, 0, [], "", 1, 0⟩),
                    (2, ⟨"core", "mix", 2, 0, [], "", 1, 0⟩)],
        wires := [⟨0, 0, 0, 1, 0, "#f00"⟩, ⟨1, 0, 0, 2, 0, "#0f0"⟩],
        nextModuleId := 3, nextWireId := 2 }
    ∃ g', removeModule g 1 = Except.ok g' ∧
      ((⟨1, 0, 0, 2, 0, "#0f0"⟩ : Wire) ∈ g'.wires ↔
        ((⟨1, 0, 0, 2, 0, "#0f0"⟩ : Wire) ∈ g.wires ∧
          wireTouchesModule ⟨1, 0, 0, 2, 0, "#0f0"⟩ 1 = false)) ∧
      ((⟨0, 0, 0, 1, 0, "#f00"⟩ : Wire) ∈ g'.wires ↔
        ((⟨0, 0, 0, 1, 0, "#f00"⟩ : Wire) ∈ g.wires ∧
          wireTouchesModule ⟨0, 0, 0, 1, 0, "#f00"⟩ 1 = false)) := by
  intro g
  refine ⟨_, rfl, ?_, ?_⟩
  · exact claim7_remove_module_exact_frame g _ 1 rfl _
  · exact claim7_remove_module_exact_frame g _ 1 rfl _

/-! ### Connection controller (drag state machine) -/

/-- Modelled from the spec: the drag state of the ConnectionController (§4.2;
the bodies behind `Port::onDragStart/onDragDrop/onDragEnd`, app.hpp lines
249-251, and `RackWidget::activeWire`, app.hpp line 78, are not in src/).
Either idle, or dragging a transient wire with one endpoint fixed; `origin`
is the port where the drag started and `color` the transient wire's color. -/
inductive DragState where
  | idle
  | dragging (fixedEnd : PortRef) (origin : PortRef) (color : String)
deriving DecidableEq, Repr

/-- Controller state: the committed patch graph plus the drag state. -/
structure CtrlState where
  graph : PatchGraph
  drag : DragState
deriving DecidableEq, Repr

/-- The output-end reference of a committed wire. -/
def outRefOf (w : Wire) : PortRef :=
  { module := w.outputModule, portId := w.outputId, dir := PortDir.output }

/-- Modelled from the spec: pointer-press over port `p` (§4.2 rule 1).  From
idle: pressing an input that already has a committed wire picks that wire
up — the wire is detached from the graph, its output endpoint stays fixed
and its input endpoint becomes the dragged end; pressing an output, or an
input with no wire, starts a brand-new transient wire fixed at `p`.  A
press while already dragging is a malformed event and is ignored (§4.2). -/
def press (s : CtrlState) (p : PortRef) (c : String) : CtrlState :=
  match s.drag with
  | DragState.dragging _ _ _ => s
  | DragState.idle =>
    if p.dir = PortDir.input then
      match s.graph.wires.find? (fun w => wireTargets w p) with
      | some w =>
        { graph := { s.graph with
            wires := s.graph.wires.filter (fun w' => !(wireTargets w' p)) },
          drag := DragState.dragging (outRefOf w) p w.color }
      | none => { s with drag := DragState.dragging p p c }
    else { s with drag := DragState.dragging p p c }

/-- The opposite port direction. -/
def oppositeDir : PortDir → PortDir
  | PortDir.input => PortDir.output
  | PortDir.output => PortDir.input

/-- Modelled from the spec: candidate resolution at release (§4.2 rules 2, 4
and 5).  The port under the pointer is a candidate only if its direction is
opposite to the transient wire's fixed end, and releasing on the port that
originated the drag is treated as no candidate (self-drop rule). -/
def candidateFor (fixedEnd origin : PortRef) (hover : Option PortRef) :
    Option PortRef :=
  match hover with
  | none => none
  | some cand =>
    if cand.dir = oppositeDir fixedEnd.dir ∧ cand ≠ origin then some cand
    else none

/-- Modelled from the spec: pointer release (§4.2 rule 4; the body behind
`Port::onDragDrop`/`Port::onDragEnd`, app.hpp lines 249-251, is not in
src/).  With a compatible candidate, `connect` is called with the endpoints
order-normalized; otherwise the transient wire is discarded.  A release
while idle is a malformed event and is ignored. -/
def release (s : CtrlState) (hover : Option PortRef) : CtrlState :=
  match s.drag with
  | DragState.idle => s
  | DragState.dragging fixedEnd origin c =>
    match candidateFor fixedEnd origin hover with
    | none => { s with drag := DragState.idle }
    | some cand =>
      let o := if fixedEnd.dir = PortDir.output then fixedEnd else cand
      let i := if fixedEnd.dir = PortDir.output then cand else fixedEnd
      match connect s.graph o i c with
      | Except.ok (g', _) => { graph := g', drag := DragState.idle }
      | Except.error _ => { s with drag := DragState.idle }

/-- C4: pressing an input port that already has a committed wire detaches
that wire (its output endpoint staying fixed as the dragged transient's
fixed end), and if the release finds no compatible candidate the wire is
permanently removed: the final graph holds exactly the original wires not
targeting that input, the detached wire among them no more. -/
theorem claim4_pickup_then_release_empty_deletes (s : CtrlState) (p : PortRef)
    (c : String) (w : Wire) (hover : Option PortRef)
    (hidle : s.drag = DragState.idle)
    (hdir : p.dir = PortDir.input)
    (hfind : s.graph.wires.find? (fun w' => wireTargets w' p) = some w)
    (hnc : candidateFor (outRefOf w) p hover = none) :
    press s p c =
      { graph := { s.graph with
          wires := s.graph.wires.filter (fun w' => !(wireTargets w' p)) },
        drag := DragState.dragging (outRefOf w) p w.color } ∧
    (release (press s p c) hover).drag = DragState.idle ∧
    (release (press s p c) hover).graph.wires =
      s.graph.wires.filter (fun w' => !(wireTargets w' p)) ∧
    w ∉ (release (press s p c) hover).graph.wires := by
  have hw : wireTargets w p = true := by
    have := List.find?_some hfind
    exact this
  have hpress : press s p c =
      { graph := { s.graph with
          wires := s.graph.wires.filter (fun w' => !(wireTargets w' p)) },
        drag := DragState.dragging (outRefOf w) p w.color } := by
    unfold press
    rw [hidle]
    simp only [hdir, hfind, eq_self_iff_true, if_true]
  refine ⟨hpress, ?_, ?_, ?_⟩
  · rw [hpress]
    unfold release
    simp only [hnc]
  · rw [hpress]
    unfold release
    simp only [hnc]
  · rw [hpress]
    unfold release
    simp only [hnc]
    intro hmem
    have := (List.mem_filter.mp hmem).2
    rw [hw] at this
    simp at this

/-- C4 witness: with the single wire A.out0→B.in0 committed, pressing B.in0
and releasing over empty canvas leaves zero wires. -/
theorem claim4_witness :
    let outP : PortRef := ⟨0, 0, PortDir.output⟩
    let inP : PortRef := ⟨1, 0, PortDir.input⟩
    let g := runOps emptyGraph [Op.connect outP inP "#f00"]
    let s : CtrlState := { graph := g, drag := DragState.idle }
    let w : Wire := ⟨0, 0, 0, 1, 0, "#f00"⟩
    s.drag = DragState.idle ∧ inP.dir = PortDir.input ∧
      g.wires.find? (fun w' => wireTargets w' inP) = some w ∧
      candidateFor (outRefOf w) inP none = none ∧
      ((release (press s inP "#fff") none).drag = DragState.idle ∧
        (release (press s inP "#fff") none).graph.wires = [] ∧
        w ∉ (release (press s inP "#fff") none).graph.wires) := by
  intro outP inP g s w
  refine ⟨rfl, rfl, by decide, rfl, ?_, ?_, ?_⟩
  · exact (claim4_pickup_then_release_empty_deletes s inP "#fff" w none
      rfl rfl (by decide) rfl).2.1
  · have := (claim4_pickup_then_release_empty_deletes s inP "#fff" w none
      rfl rfl (by decide) rfl).2.2.1
    rw [this]
    decide
  · exact (claim4_pickup_then_release_empty_deletes s inP "#fff" w none
      rfl rfl (by decide) rfl).2.2.2

/-- C8: releasing a drag over the port where it originated is treated as
having no candidate: nothing is committed (the graph after the release is
exactly the graph after the press, so every committed wire predates the
drag) and the controller returns to idle. -/
theorem claim8_self_drop_discards (s : CtrlState) (p : PortRef) (c : String)
    (hidle : s.drag = DragState.idle) :
    (release (press s p c) (some p)).graph = (press s p c).graph ∧
    (release (press s p c) (some p)).drag = DragState.idle ∧
    ∀ w ∈ (release (press s p c) (some p)).graph.wires, w ∈ s.graph.wires := by
  have hsub : ∀ w ∈ (press s p c).graph.wires, w ∈ s.graph.wires := by
    unfold press
    rw [hidle]
    by_cases hdir : p.dir = PortDir.input
    · simp only [hdir, if_pos rfl]
      cases hfind : s.graph.wires.find? (fun w => wireTargets w p) with
      | some w =>
        intro w' hw'
        simp only at hw'
        exact (List.mem_filter.mp hw').1
      | none =>
        intro w' hw'
        exact hw'
    · simp only [if_neg hdir]
      intro w' hw'
      exact hw'
  have horigin : ∃ fe col, (press s p c).drag = DragState.dragging fe p col := by
    unfold press
    rw [hidle]
    by_cases hdir : p.dir = PortDir.input
    · simp only [hdir, if_pos rfl]
      cases hfind : s.graph.wires.find? (fun w => wireTargets w p) with
      | some w => exact ⟨outRefOf w, w.color, rfl⟩
      | none => exact ⟨p, c, rfl⟩
    · simp only [if_neg hdir]
      exact ⟨p, c, rfl⟩
  obtain ⟨fe, col, hdrag⟩ := horigin
  have hcand : candidateFor fe p (some p) = none := by
    unfold candidateFor
    simp
  have hrel : release (press s p c) (some p) =
      { press s p c with drag := DragState.idle } := by
    unfold release
    rw [hdrag]
    simp only [hcand]
  rw [hrel]
  exact ⟨rfl, rfl, hsub⟩

/-- C8 witness: starting from the empty rack, pressing output (0,0) and
releasing over the same port commits nothing. -/
theorem claim8_witness :
    let p : PortRef := ⟨0, 0, PortDir.output⟩
    let s : CtrlState := { graph := emptyGraph, drag := DragState.idle }
    (release (press s p "#fff") (some p)).graph = (press s p "#fff").graph ∧
    (release (press s p "#fff") (some p)).drag = DragState.idle ∧
    ∀ w ∈ (release (press s p "#fff") (some p)).graph.wires,
      w ∈ s.graph.wires := by
  intro p s
  exact claim8_self_drop_discards s p "#fff" rfl

/-! ### Patch serializer -/

/-- One entry of the `modules` array of the patch document (spec §6):
persisted id, descriptor identity, position, parameter values and the
module-local payload sub-document. -/
structure ModuleEntry where
  entryId : Nat
  plugin : String
  modelName : String
  x : Int
  y : Int
  params : List Int
  payload : String
deriving DecidableEq, Repr

/-- One entry of the `wires` array of the patch document (spec §6). -/
structure WireEntry where
  outputModuleId : Nat
  outputId : Nat
  inputModuleId : Nat
  inputId : Nat
  color : String
deriving DecidableEq, Repr

/-- The structurally parsed patch document (spec §6): the two ordered
top-level collections. -/
structure PatchDoc where
  modules : List ModuleEntry
  wires : List WireEntry
deriving DecidableEq, Repr

/-- The plugin catalogue: maps a descriptor identity (pluginId, moduleId) to
the declared port counts (inputs, outputs), or `none` if unknown. -/
def Registry : Type := String → String → Option (Nat × Nat)

/-- The module entry written for the module at positional index `idx`. -/
def moduleEntryOf (idx : Nat) (m : Module) : ModuleEntry :=
  { entryId := idx, plugin := m.plugin, modelName := m.modelName,
    x := m.x, y := m.y, params := m.params, payload := m.payload }

/-- Serialize the module list, assigning positional persisted ids from
`idx` upward. -/
def modEntriesFrom (idx : Nat) : List Module → List ModuleEntry
  | [] => []
  | m :: ms => moduleEntryOf idx m :: modEntriesFrom (idx + 1) ms

/-- Positional index (counting from `idx`) of the first module whose runtime
id is `rid`. -/
def modIndexFrom (rid idx : Nat) : List (Nat × Module) → Option Nat
  | [] => none
  | p :: ms => if p.1 = rid then some idx else modIndexFrom rid (idx + 1) ms

/-- Serialize one committed wire, translating runtime module ids into
positional persisted ids; `none` when an endpoint module is absent. -/
def wireEntryOf (g : PatchGraph) (w : Wire) : Option WireEntry :=
  match modIndexFrom w.outputModule 0 g.modules,
        modIndexFrom w.inputModule 0 g.modules with
  | some oi, some ii =>
    some { outputModuleId := oi, outputId := w.outputId,
           inputModuleId := ii, inputId := w.inputId, color := w.color }
  | _, _ => none

/-- Modelled from the spec: `RackWidget::toJson` (app.hpp line 86; body not
in src/).  Writes the modules in insertion order with positional ids and
the wires in insertion order with endpoints resolved to those ids. -/
def toJson (g : PatchGraph) : PatchDoc :=
  { modules := modEntriesFrom 0 (g.modules.map Prod.snd),
    wires := g.wires.filterMap (wireEntryOf g) }

/-- The runtime module rebuilt from a persisted entry and the catalogue's
port counts. -/
def moduleOfEntry (e : ModuleEntry) (spec : Nat × Nat) : Module :=
  { plugin := e.plugin, modelName := e.modelName, x := e.x, y := e.y,
    params := e.params, payload := e.payload,
    numInputs := spec.1, numOutputs := spec.2 }

/-- Deserialize the module entries in order, assigning fresh runtime ids
from `fid` upward (never reusing persisted ids); an entry whose descriptor
is unknown to the catalogue is skipped.  Each kept triple is (fresh runtime
id, persisted entry, rebuilt module). -/
def buildModulesFrom (reg : Registry) (fid : Nat) :
    List ModuleEntry → List (Nat × ModuleEntry × Module)
  | [] => []
  | e :: es =>
    match reg e.plugin e.modelName with
    | some spec => (fid, e, moduleOfEntry e spec) :: buildModulesFrom reg (fid + 1) es
    | none => buildModulesFrom reg (fid + 1) es

/-- Find the loaded module whose persisted id is `pid`. -/
def lookupLoaded (lm : List (Nat × ModuleEntry × Module)) (pid : Nat) :
    Option (Nat × Module) :=
  match lm with
  | [] => none
  | t :: rest =>
    if t.2.1.entryId = pid then some (t.1, t.2.2) else lookupLoaded rest pid

/-- Resolve one persisted wire entry against the loaded modules: both
endpoint modules must exist and both port ids must be in range; the result
is (output runtime id, output port, input runtime id, input port). -/
def resolveWireEntry (lm : List (Nat × ModuleEntry × Module)) (e : WireEntry) :
    Option (Nat × Nat × Nat × Nat) :=
  match lookupLoaded lm e.outputModuleId, lookupLoaded lm e.inputModuleId with
  | some om, some im =>
    if e.outputId < om.2.numOutputs ∧ e.inputId < im.2.numInputs then
      some (om.1, e.outputId, im.1, e.inputId)
    else none
  | _, _ => none

/-- The committed wire rebuilt from a resolved wire entry. -/
def wireOfResolved (wid : Nat) (q : Nat × Nat × Nat × Nat) (c : String) : Wire :=
  { wireId := wid, outputModule := q.1, outputId := q.2.1, inputModule := q.2.2.1, inputId := q.2.2.2, color := c }

/-- Deserialize the wire entries in order; an unresolvable entry (missing
module or out-of-range port) is dropped. -/
def buildWiresFrom (lm : List (Nat × ModuleEntry × Module)) (wid : Nat) :
    List WireEntry → List Wire
  | [] => []
  | e :: es =>
    match resolveWireEntry lm e with
    | some q => wireOfResolved wid q e.color :: buildWiresFrom lm (wid + 1) es
    | none => buildWiresFrom lm (wid + 1) es

/-- One warning per module entry whose descriptor is unknown. -/
def moduleWarnings (reg : Registry) : List ModuleEntry → List String
  | [] => []
  | e :: es =>
    if (reg e.plugin e.modelName).isNone then
      ("unknown module: " ++ e.plugin ++ "/" ++ e.modelName) :: moduleWarnings reg es
    else moduleWarnings reg es

/-- One warning per dropped wire entry. -/
def wireWarnings (lm : List (Nat × ModuleEntry × Module)) :
    List WireEntry → List String
  | [] => []
  | e :: es =>
    if (resolveWireEntry lm e).isNone then
      "dangling wire reference dropped" :: wireWarnings lm es
    else wireWarnings lm es

/-- Result of loading a patch document: the rebuilt graph and the per-entry
recovery warnings. -/
structure LoadResult where
  graph : PatchGraph
  warnings : List String
deriving DecidableEq, Repr

/-- Modelled from the spec: `RackWidget::fromJson` (app.hpp line 87; body not
in src/).  Modules first, with fresh runtime ids from `n`; then wires
resolved against the loaded modules; unresolvable entries are dropped with
a warning, never a fatal error (spec §4.3, §7). -/
def fromJson (reg : Registry) (n : Nat) (doc : PatchDoc) : LoadResult :=
  let lm := buildModulesFrom reg n doc.modules
  { graph := { modules := lm.map (fun t => (t.1, t.2.2)),
               wires := buildWiresFrom lm 0 doc.wires,
               nextModuleId := n + doc.modules.length,
               nextWireId := doc.wires.length },
    warnings := moduleWarnings reg doc.modules ++ wireWarnings lm doc.wires }

/-- The persisted (non-identity) fields of a module entry. -/
def entryFields (e : ModuleEntry) : String × String × Int × Int × List Int × String :=
  (e.plugin, e.modelName, e.x, e.y, e.params, e.payload)

/-- The persisted fields of a runtime module. -/
def moduleFields (m : Module) : String × String × Int × Int × List Int × String :=
  (m.plugin, m.modelName, m.x, m.y, m.params, m.payload)

theorem buildModulesFrom_fields (reg : Registry) (es : List ModuleEntry) :
    ∀ fid : Nat, (∀ e ∈ es, (reg e.plugin e.modelName).isSome = true) →
    (buildModulesFrom reg fid es).map (fun t => moduleFields t.2.2) =
      es.map entryFields := by
  induction es with
  | nil => intro fid _; rfl
  | cons e es ih =>
    intro fid hall
    have he := hall e (List.mem_cons_self e es)
    obtain ⟨spec, hspec⟩ := Option.isSome_iff_exists.mp he
    have htail : ∀ e' ∈ es, (reg e'.plugin e'.modelName).isSome = true :=
      fun e' h => hall e' (List.mem_cons_of_mem e h)
    simp only [buildModulesFrom, hspec, List.map_cons]
    rw [ih (fid + 1) htail]
    rfl

theorem buildWiresFrom_length (lm : List (Nat × ModuleEntry × Module))
    (es : List WireEntry) : ∀ wid : Nat,
    (buildWiresFrom lm wid es).length =
      es.countP (fun e => (resolveWireEntry lm e).isSome) := by
  induction es with
  | nil => intro wid; rfl
  | cons e es ih =>
    intro wid
    cases hres : resolveWireEntry lm e with
    | some q =>
      simp only [buildWiresFrom, hres, List.length_cons, List.countP_cons,
        Option.isSome_some, if_pos rfl]
      rw [ih (wid + 1)]
      simp
    | none =>
      simp only [buildWiresFrom, hres, List.countP_cons, Option.isSome_none]
      rw [ih (wid + 1)]
      simp

theorem buildWiresFrom_mem (lm : List (Nat × ModuleEntry × Module))
    (es : List WireEntry) : ∀ wid : Nat, ∀ e ∈ es, ∀ q,
    resolveWireEntry lm e = some q →
    ∃ wid', wireOfResolved wid' q e.color ∈ buildWiresFrom lm wid es := by
  induction es with
  | nil => intro _ e he; exact absurd he (List.not_mem_nil e)
  | cons e0 es ih =>
    intro wid e he q hq
    rcases List.mem_cons.mp he with rfl | hmem
    · refine ⟨wid, ?_⟩
      simp only [buildWiresFrom, hq]
      exact List.mem_cons_self _ _
    · obtain ⟨wid', hw⟩ := ih (wid + 1) e hmem q hq
      refine ⟨wid', ?_⟩
      cases hres : resolveWireEntry lm e0 with
      | some q0 =>
        simp only [buildWiresFrom, hres]
        exact List.mem_cons_of_mem _ hw
      | none =>
        simp only [buildWiresFrom, hres]
        exact hw

theorem wireWarnings_length (lm : List (Nat × ModuleEntry × Module))
    (es : List WireEntry) :
    (wireWarnings lm es).length =
      es.countP (fun e => (resolveWireEntry lm e).isNone) := by
  induction es with
  | nil => rfl
  | cons e es ih =>
    cases hres : resolveWireEntry lm e with
    | some q =>
      simp only [wireWarnings, hres, Option.isNone_some, Bool.false_eq_true,
        if_false, List.countP_cons, ih]
      simp [hres]
    | none =>
      simp only [wireWarnings, hres, Option.isNone_none, if_true,
        List.length_cons, List.countP_cons, ih]

theorem moduleWarnings_nil (reg : Registry) (es : List ModuleEntry)
    (hall : ∀ e ∈ es, (reg e.plugin e.modelName).isSome = true) :
    moduleWarnings reg es = [] := by
  induction es with
  | nil => rfl
  | cons e es ih =>
    have he := hall e (List.mem_cons_self e es)
    have hnone : (reg e.plugin e.modelName).isNone = false := by
      rw [Option.isNone_eq_false_iff]
      exact he
    simp only [moduleWarnings, hnone, Bool.false_eq_true, if_false]
    exact ih (fun e' h => hall e' (List.mem_cons_of_mem e h))

/-- C6: loading a structurally parsed document whose module descriptors all
resolve keeps every module entry (order and persisted fields intact), keeps
exactly the wire entries that reference an existing module with in-range
port ids (each such entry yields a committed wire with its endpoints and
color), drops the rest, and reports one warning per dropped wire entry
instead of failing. -/
theorem claim6_load_drops_dangling_wires_with_warning (reg : Registry)
    (n : Nat) (doc : PatchDoc)
    (hm : ∀ e ∈ doc.modules, (reg e.plugin e.modelName).isSome = true) :
    ((fromJson reg n doc).graph.modules.map (fun t => moduleFields t.2) =
      doc.modules.map entryFields) ∧
    ((fromJson reg n doc).graph.wires.length = doc.wires.countP
      (fun e => (resolveWireEntry (buildModulesFrom reg n doc.modules) e).isSome)) ∧
    (∀ e ∈ doc.wires, ∀ q,
      resolveWireEntry (buildModulesFrom reg n doc.modules) e = some q →
      ∃ wid', wireOfResolved wid' q e.color ∈ (fromJson reg n doc).graph.wires) ∧
    ((fromJson reg n doc).warnings.length = doc.wires.countP
      (fun e => (resolveWireEntry (buildModulesFrom reg n doc.modules) e).isNone)) := by
  refine ⟨?_, ?_, ?_, ?_⟩
  · show ((buildModulesFrom reg n doc.modules).map (fun t => (t.1, t.2.2))).map
        (fun t => moduleFields t.2) = doc.modules.map entryFields
    rw [List.map_map]
    exact buildModulesFrom_fields reg doc.modules n hm
  · exact buildWiresFrom_length _ doc.wires 0
  · exact buildWiresFrom_mem _ doc.wires 0
  · show (moduleWarnings reg doc.modules ++
        wireWarnings (buildModulesFrom reg n doc.modules) doc.wires).length = _
    rw [moduleWarnings_nil reg doc.modules hm]
    simpa using wireWarnings_length _ doc.wires

/-- A two-module catalogue for the concrete loading examples. -/
def demoRegistry : Registry := fun plugin modelName =>
  if plugin = "core" ∧ modelName = "osc" then some (0, 1)
  else if plugin = "core" ∧ modelName = "amp" then some (1, 0)
  else none

/-- A document with two modules, one good wire entry, one wire entry naming
a missing module id and one naming an out-of-range port id. -/
def demoDoc : PatchDoc :=
  { modules := [⟨0, "core", "osc", 0, 0, [], ""⟩, ⟨1, "core", "amp", 1, 0, [2], ""⟩],
    wires := [⟨0, 0, 1, 0, "#f00"⟩, ⟨7, 0, 1, 0, "#0f0"⟩, ⟨0, 5, 1, 0, "#00f"⟩] }

/-- C6 witness: loading `demoDoc` keeps both modules, keeps the resolvable
wire, drops the two dangling entries and reports two warnings. -/
theorem claim6_witness :
    ((fromJson demoRegistry 10 demoDoc).graph.modules.map (fun t => moduleFields t.2) =
      demoDoc.modules.map entryFields) ∧
    ((fromJson demoRegistry 10 demoDoc).graph.wires.length = demoDoc.wires.countP
      (fun e => (resolveWireEntry (buildModulesFrom demoRegistry 10 demoDoc.modules) e).isSome)) ∧
    (∀ e ∈ demoDoc.wires, ∀ q,
      resolveWireEntry (buildModulesFrom demoRegistry 10 demoDoc.modules) e = some q →
      ∃ wid', wireOfResolved wid' q e.color ∈
        (fromJson demoRegistry 10 demoDoc).graph.wires) ∧
    ((fromJson demoRegistry 10 demoDoc).warnings.length = demoDoc.wires.countP
      (fun e => (resolveWireEntry (buildModulesFrom demoRegistry 10 demoDoc.modules) e).isNone)) :=
  claim6_load_drops_dangling_wires_with_warning demoRegistry 10 demoDoc
    (by decide)

/-! ### Round trip (C5) -/

/-- Placeholder module used only as a `getD` default in proofs. -/
def dfltModule : Module :=
  { plugin := "", modelName := "", x := 0, y := 0, params := [], payload := "",
    numInputs := 0, numOutputs := 0 }

/-- Placeholder keyed module used only as a `getD` default in proofs. -/
def dfltPair : Nat × Module := (0, dfltModule)

/-- The loaded triples obtained from re-reading a freshly serialized module
list: positional entries from `idx`, fresh runtime ids from `fid`. -/
def buildAux : List Module → Nat → Nat → List (Nat × ModuleEntry × Module)
  | [], _, _ => []
  | m :: ms, idx, fid => (fid, moduleEntryOf idx m, m) :: buildAux ms (idx + 1) (fid + 1)

/-- The module list rekeyed with fresh runtime ids from `fid`. -/
def reindex : List Module → Nat → List (Nat × Module)
  | [], _ => []
  | m :: ms, fid => (fid, m) :: reindex ms (fid + 1)

/-- Every wire endpoint of `w` names a module present in `g` with the port
id in range of that module's declared port count. -/
def WireRefOk (g : PatchGraph) (w : Wire) : Prop :=
  (∃ p ∈ g.modules, p.1 = w.outputModule ∧ w.outputId < p.2.numOutputs) ∧
  (∃ p ∈ g.modules, p.1 = w.inputModule ∧ w.inputId < p.2.numInputs)

/-- The catalogue agrees with every module of `g` about its port counts. -/
def RegistryMatches (reg : Registry) (g : PatchGraph) : Prop :=
  ∀ p ∈ g.modules, reg p.2.plugin p.2.modelName = some (p.2.numInputs, p.2.numOutputs)

theorem buildModulesFrom_modEntries (reg : Registry) (ms : List Module) :
    ∀ idx fid : Nat,
    (∀ m ∈ ms, reg m.plugin m.modelName = some (m.numInputs, m.numOutputs)) →
    buildModulesFrom reg fid (modEntriesFrom idx ms) = buildAux ms idx fid := by
  induction ms with
  | nil => intro idx fid _; rfl
  | cons m ms ih =>
    intro idx fid hall
    have hm := hall m (List.mem_cons_self m ms)
    have : reg (moduleEntryOf idx m).plugin (moduleEntryOf idx m).modelName =
        some (m.numInputs, m.numOutputs) := hm
    simp only [modEntriesFrom, buildModulesFrom, this, buildAux]
    have hmod : moduleOfEntry (moduleEntryOf idx m) (m.numInputs, m.numOutputs) = m := rfl
    rw [hmod, ih (idx + 1) (fid + 1) (fun m' h => hall m' (List.mem_cons_of_mem m h))]

theorem buildAux_map (ms : List Module) : ∀ idx fid : Nat,
    (buildAux ms idx fid).map (fun t => (t.1, t.2.2)) = reindex ms fid := by
  induction ms with
  | nil => intro idx fid; rfl
  | cons m ms ih =>
    intro idx fid
    simp only [buildAux, List.map_cons, reindex, ih (idx + 1) (fid + 1)]

theorem reindex_map_snd (ms : List Module) : ∀ fid : Nat,
    (reindex ms fid).map Prod.snd = ms := by
  induction ms with
  | nil => intro fid; rfl
  | cons m ms ih =>
    intro fid
    simp only [reindex, List.map_cons, ih (fid + 1)]

theorem lookupLoaded_buildAux (ms : List Module) : ∀ idx fid k : Nat,
    k < ms.length →
    lookupLoaded (buildAux ms idx fid) (idx + k) =
      some (fid + k, ms.getD k dfltModule) := by
  induction ms with
  | nil => intro idx fid k hk; exact absurd hk (by simp)
  | cons m ms ih =>
    intro idx fid k hk
    cases k with
    | zero =>
      simp only [buildAux, lookupLoaded, moduleEntryOf, Nat.add_zero,
        List.getD_cons_zero]
      simp
    | succ k =>
      have hne : ¬(idx = idx + (k + 1)) := by omega
      have hk' : k < ms.length := by
        simp only [List.length_cons] at hk
        omega
      simp only [buildAux, lookupLoaded, moduleEntryOf, if_neg hne,
        List.getD_cons_succ]
      have := ih (idx + 1) (fid + 1) k hk'
      rw [show idx + (k + 1) = (idx + 1) + k by omega,
        show fid + (k + 1) = (fid + 1) + k by omega]
      exact this

theorem modIndexFrom_reindex (ms : List Module) : ∀ fid idx k : Nat,
    k < ms.length →
    modIndexFrom (fid + k) idx (reindex ms fid) = some (idx + k) := by
  induction ms with
  | nil => intro fid idx k hk; exact absurd hk (by simp)
  | cons m ms ih =>
    intro fid idx k hk
    cases k with
    | zero =>
      simp only [reindex, modIndexFrom, Nat.add_zero]
      simp
    | succ k =>
      have hne : ¬(fid = fid + (k + 1)) := by omega
      have hk' : k < ms.length := by
        simp only [List.length_cons] at hk
        omega
      simp only [reindex, modIndexFrom, if_neg hne]
      have := ih (fid + 1) (idx + 1) k hk'
      rw [show fid + (k + 1) = (fid + 1) + k by omega,
        show idx + (k + 1) = (idx + 1) + k by omega]
      exact this

theorem modIndexFrom_found (ms : List (Nat × Module)) :
    ∀ (idx : Nat) (p : Nat × Module), (ms.map Prod.fst).Nodup → p ∈ ms →
    ∃ j, j < ms.length ∧ modIndexFrom p.1 idx ms = some (idx + j) ∧
      ms.getD j dfltPair = p := by
  induction ms with
  | nil => intro idx p _ hp; exact absurd hp (List.not_mem_nil p)
  | cons a ms ih =>
    intro idx p hnd hp
    rw [List.map_cons, List.nodup_cons] at hnd
    rcases List.mem_cons.mp hp with rfl | hmem
    · refine ⟨0, by simp, ?_, List.getD_cons_zero⟩
      simp only [modIndexFrom, Nat.add_zero]
      simp
    · have hne : ¬(a.1 = p.1) := by
        intro h
        exact hnd.1 (h ▸ List.mem_map_of_mem Prod.fst hmem)
      obtain ⟨j, hj, hfind, hget⟩ := ih (idx + 1) p hnd.2 hmem
      refine ⟨j + 1, by simp only [List.length_cons]; omega, ?_, ?_⟩
      · simp only [modIndexFrom, if_neg hne]
        rw [show idx + (j + 1) = (idx + 1) + j by omega]
        exact hfind
      · rw [List.getD_cons_succ]
        exact hget

theorem getD_map_snd (ms : List (Nat × Module)) : ∀ k : Nat, k < ms.length →
    (ms.map Prod.snd).getD k dfltModule = (ms.getD k dfltPair).2 := by
  induction ms with
  | nil => intro k hk; exact absurd hk (by simp)
  | cons a ms ih =>
    intro k hk
    cases k with
    | zero => simp
    | succ k =>
      simp only [List.map_cons, List.getD_cons_succ]
      exact ih k (by simp only [List.length_cons] at hk; omega)

theorem roundtrip_wires (g g' : PatchGraph) (n : Nat)
    (hnd : (g.modules.map Prod.fst).Nodup)
    (hg' : g'.modules = reindex (g.modules.map Prod.snd) n) :
    ∀ (ws : List Wire) (wid : Nat), (∀ w ∈ ws, WireRefOk g w) →
    (buildWiresFrom (buildAux (g.modules.map Prod.snd) 0 n) wid
      (ws.filterMap (wireEntryOf g))).filterMap (wireEntryOf g') =
      ws.filterMap (wireEntryOf g) := by
  intro ws
  induction ws with
  | nil => intro wid _; rfl
  | cons w ws ih =>
    intro wid hall
    obtain ⟨⟨po, hpoMem, hpoId, hpoRng⟩, ⟨pi, hpiMem, hpiId, hpiRng⟩⟩ :=
      hall w (List.mem_cons_self w ws)
    obtain ⟨jo, hjo, hfo, hgo⟩ := modIndexFrom_found g.modules 0 po hnd hpoMem
    obtain ⟨ji, hji, hfi, hgi⟩ := modIndexFrom_found g.modules 0 pi hnd hpiMem
    have hfo2 : modIndexFrom w.outputModule 0 g.modules = some jo := by
      rw [← hpoId]
      simpa using hfo
    have hfi2 : modIndexFrom w.inputModule 0 g.modules = some ji := by
      rw [← hpiId]
      simpa using hfi
    have hew : wireEntryOf g w = some ⟨jo, w.outputId, ji, w.inputId, w.color⟩ := by
      unfold wireEntryOf
      rw [hfo2, hfi2]
    have hjo' : jo < (g.modules.map Prod.snd).length := by
      simpa using hjo
    have hji' : ji < (g.modules.map Prod.snd).length := by
      simpa using hji
    have hlo : lookupLoaded (buildAux (g.modules.map Prod.snd) 0 n) jo =
        some (n + jo, (g.modules.map Prod.snd).getD jo dfltModule) := by
      have := lookupLoaded_buildAux (g.modules.map Prod.snd) 0 n jo hjo'
      simpa using this
    have hli : lookupLoaded (buildAux (g.modules.map Prod.snd) 0 n) ji =
        some (n + ji, (g.modules.map Prod.snd).getD ji dfltModule) := by
      have := lookupLoaded_buildAux (g.modules.map Prod.snd) 0 n ji hji'
      simpa using this
    have hmo : (g.modules.map Prod.snd).getD jo dfltModule = po.2 := by
      rw [getD_map_snd g.modules jo hjo, hgo]
    have hmi : (g.modules.map Prod.snd).getD ji dfltModule = pi.2 := by
      rw [getD_map_snd g.modules ji hji, hgi]
    have hres : resolveWireEntry (buildAux (g.modules.map Prod.snd) 0 n)
        ⟨jo, w.outputId, ji, w.inputId, w.color⟩ =
        some (n + jo, w.outputId, n + ji, w.inputId) := by
      unfold resolveWireEntry
      simp only [hlo, hli, hmo, hmi]
      rw [if_pos ⟨hpoRng, hpiRng⟩]
    have hbw : buildWiresFrom (buildAux (g.modules.map Prod.snd) 0 n) wid
        ((⟨jo, w.outputId, ji, w.inputId, w.color⟩ : WireEntry) ::
          ws.filterMap (wireEntryOf g)) =
        wireOfResolved wid (n + jo, w.outputId, n + ji, w.inputId) w.color ::
          buildWiresFrom (buildAux (g.modules.map Prod.snd) 0 n) (wid + 1)
            (ws.filterMap (wireEntryOf g)) := by
      simp only [buildWiresFrom, hres]
    have hback : wireEntryOf g'
        (wireOfResolved wid (n + jo, w.outputId, n + ji, w.inputId) w.color) =
        some ⟨jo, w.outputId, ji, w.inputId, w.color⟩ := by
      unfold wireEntryOf wireOfResolved
      rw [hg']
      have h1 := modIndexFrom_reindex (g.modules.map Prod.snd) n 0 jo hjo'
      have h2 := modIndexFrom_reindex (g.modules.map Prod.snd) n 0 ji hji'
      simp only [Nat.zero_add] at h1 h2
      simp only [h1, h2]
    rw [List.filterMap_cons_some hew, hbw, List.filterMap_cons_some hback]
    rw [ih (wid + 1) (fun w' h => hall w' (List.mem_cons_of_mem w h))]

theorem docExt (d1 d2 : PatchDoc) (h1 : d1.modules = d2.modules)
    (h2 : d1.wires = d2.wires) : d1 = d2 := by
  cases d1
  cases d2
  cases h1
  cases h2
  rfl

/-- C5: serializing a graph whose wires all reference present modules with
in-range port ids, loading the document (with a catalogue matching the
modules' port counts and any fresh-id base), and serializing again yields
the identical document: the wire and module-parameter sections agree entry
for entry, with module and wire order preserved. -/
theorem claim5_serialize_roundtrip (g : PatchGraph) (reg : Registry) (n : Nat)
    (hnd : (g.modules.map Prod.fst).Nodup)
    (hreg : RegistryMatches reg g)
    (hok : ∀ w ∈ g.wires, WireRefOk g w) :
    toJson (fromJson reg n (toJson g)).graph = toJson g := by
  have hregList : ∀ m ∈ g.modules.map Prod.snd,
      reg m.plugin m.modelName = some (m.numInputs, m.numOutputs) := by
    intro m hm
    obtain ⟨p, hp, rfl⟩ := List.mem_map.mp hm
    exact hreg p hp
  have hbm : buildModulesFrom reg n (toJson g).modules =
      buildAux (g.modules.map Prod.snd) 0 n := by
    show buildModulesFrom reg n (modEntriesFrom 0 (g.modules.map Prod.snd)) = _
    exact buildModulesFrom_modEntries reg _ 0 n hregList
  have hmods : (fromJson reg n (toJson g)).graph.modules =
      reindex (g.modules.map Prod.snd) n := by
    show (buildModulesFrom reg n (toJson g).modules).map (fun t => (t.1, t.2.2)) = _
    rw [hbm]
    exact buildAux_map _ 0 n
  have hwires : (fromJson reg n (toJson g)).graph.wires =
      buildWiresFrom (buildAux (g.modules.map Prod.snd) 0 n) 0
        (g.wires.filterMap (wireEntryOf g)) := by
    show buildWiresFrom (buildModulesFrom reg n (toJson g).modules) 0
        (toJson g).wires = _
    rw [hbm]
    rfl
  refine docExt _ _ ?_ ?_
  · show modEntriesFrom 0 ((fromJson reg n (toJson g)).graph.modules.map Prod.snd) =
      modEntriesFrom 0 (g.modules.map Prod.snd)
    rw [hmods, reindex_map_snd]
  · show ((fromJson reg n (toJson g)).graph.wires).filterMap
        (wireEntryOf (fromJson reg n (toJson g)).graph) =
      g.wires.filterMap (wireEntryOf g)
    rw [hwires]
    exact roundtrip_wires g _ n hnd hmods g.wires 0 hok

/-- A concrete two-module, one-wire rack for the round-trip example. -/
def demoGraph : PatchGraph :=
  { modules := [(5, ⟨"core", "osc", 0, 0, [], "", 0, 1⟩),
                (9, ⟨"core", "amp", 1, 0, [2], "", 1, 0⟩)],
    wires := [⟨3, 5, 0, 9, 0, "#f00"⟩],
    nextModuleId := 10, nextWireId := 4 }

/-- C5 witness: the demo rack satisfies the reference hypotheses and its
document survives a save/load/save round trip unchanged. -/
theorem claim5_witness :
    ((demoGraph.modules.map Prod.fst).Nodup ∧
      RegistryMatches demoRegistry demoGraph ∧
      (∀ w ∈ demoGraph.wires, WireRefOk demoGraph w)) ∧
    toJson (fromJson demoRegistry 100 (toJson demoGraph)).graph =
      toJson demoGraph :=
  ⟨⟨by decide, by unfold RegistryMatches; decide, by unfold WireRefOk; decide⟩,
    claim5_serialize_roundtrip demoGraph demoRegistry 100 (by decide)
      (by unfold RegistryMatches; decide) (by unfold WireRefOk; decide)⟩

/-! ### Parameter switches (inline code in app.hpp) -/

/-- Parameter quantity state of a `ParamWidget`: current value and range.
The C++ `float` arithmetic of the switch handlers (adding 1.0 and comparing)
is modelled exactly over the rationals. -/
structure QuantityWidget where
  value : Rat
  minValue : Rat
  maxValue : Rat
deriving DecidableEq, Repr

/-- Modelled from the spec: `QuantityWidget::setValue` is declared in
widgets.hpp, which is not among the extracted sources; this core "only
writes parameter values" (spec §5), so it is modelled as storing the given
value. -/
def setValue (q : QuantityWidget) (v : Rat) : QuantityWidget :=
  { q with value := v }

/-- `ToggleSwitch::onDragStart` (app.hpp lines 184-189, inline):
`float v = value + 1.0; setValue(v <= maxValue ? v : minValue);`. -/
def ToggleSwitch.onDragStart (q : QuantityWidget) : QuantityWidget :=
  let v := q.value + 1
  setValue q (if v ≤ q.maxValue then v else q.minValue)

/-- A `ModeSwitch` instance: a widget identity (for the `origin != this`
test) plus its quantity state. -/
structure ModeSwitch where
  widgetId : Nat
  quantity : QuantityWidget
deriving DecidableEq, Repr

/-- `ModeSwitch::onDragDrop(Widget *origin)` (app.hpp lines 205-212,
inline): `if (origin != this) return;` then cycle the value exactly as
`ToggleSwitch::onDragStart` does. -/
def ModeSwitch.onDragDrop (s : ModeSwitch) (origin : Nat) : ModeSwitch :=
  if origin ≠ s.widgetId then s
  else
    let v := s.quantity.value + 1
    { s with quantity :=
        setValue s.quantity (if v ≤ s.quantity.maxValue then v else s.quantity.minValue) }

/-- C9: for a ToggleSwitch whose value lies in [minValue, maxValue],
`onDragStart` bumps the value by 1.0 when that stays at most maxValue and
otherwise wraps to minValue; either way the value stays within
[minValue, maxValue]. -/
theorem claim9_toggle_switch_cycles_in_range (q : QuantityWidget)
    (h1 : q.minValue ≤ q.value) (h2 : q.value ≤ q.maxValue) :
    ((q.value + 1 ≤ q.maxValue →
        (ToggleSwitch.onDragStart q).value = q.value + 1) ∧
      (¬(q.value + 1 ≤ q.maxValue) →
        (ToggleSwitch.onDragStart q).value = q.minValue)) ∧
    q.minValue ≤ (ToggleSwitch.onDragStart q).value ∧
    (ToggleSwitch.onDragStart q).value ≤ q.maxValue := by
  unfold ToggleSwitch.onDragStart setValue
  by_cases h : q.value + 1 ≤ q.maxValue
  · simp only [if_pos h]
    exact ⟨⟨fun _ => trivial, fun hc => absurd h hc⟩, by linarith, h⟩
  · simp only [if_neg h]
    exact ⟨⟨fun hc => absurd hc h, fun _ => trivial⟩, le_refl _, by linarith⟩

/-- C9 witness: a switch with range [0, 3] at value 1 moves to 2, and from
value 3 wraps to 0, staying in range both times. -/
theorem claim9_witness :
    (((⟨1, 0, 3⟩ : QuantityWidget).minValue ≤ (⟨1, 0, 3⟩ : QuantityWidget).value ∧
        (⟨1, 0, 3⟩ : QuantityWidget).value ≤ (⟨1, 0, 3⟩ : QuantityWidget).maxValue) ∧
      ((⟨1, 0, 3⟩ : QuantityWidget).minValue ≤
          (ToggleSwitch.onDragStart ⟨1, 0, 3⟩).value ∧
        (ToggleSwitch.onDragStart ⟨1, 0, 3⟩).value ≤
          (⟨1, 0, 3⟩ : QuantityWidget).maxValue)) ∧
    (((⟨3, 0, 3⟩ : QuantityWidget).minValue ≤ (⟨3, 0, 3⟩ : QuantityWidget).value ∧
        (⟨3, 0, 3⟩ : QuantityWidget).value ≤ (⟨3, 0, 3⟩ : QuantityWidget).maxValue) ∧
      (¬((⟨3, 0, 3⟩ : QuantityWidget).value + 1 ≤
          (⟨3, 0, 3⟩ : QuantityWidget).maxValue) →
        (ToggleSwitch.onDragStart ⟨3, 0, 3⟩).value =
          (⟨3, 0, 3⟩ : QuantityWidget).minValue)) :=
  ⟨⟨⟨by norm_num, by norm_num⟩,
      (claim9_toggle_switch_cycles_in_range ⟨1, 0, 3⟩ (by norm_num) (by norm_num)).2⟩,
    ⟨⟨by norm_num, by norm_num⟩,
      ((claim9_toggle_switch_cycles_in_range ⟨3, 0, 3⟩ (by norm_num) (by norm_num)).1).2⟩⟩

/-- C10: a ModeSwitch's `onDragDrop` leaves the value untouched whenever the
drop origin is any widget other than the switch itself, and cycles the
value (add 1.0, wrapping to minValue past maxValue) exactly when the origin
is the switch itself. -/
theorem claim10_mode_switch_drop_origin_only (s : ModeSwitch) (origin : Nat) :
    (origin ≠ s.widgetId → ModeSwitch.onDragDrop s origin = s) ∧
    (origin = s.widgetId →
      (ModeSwitch.onDragDrop s origin).quantity.value =
        if s.quantity.value + 1 ≤ s.quantity.maxValue then s.quantity.value + 1
        else s.quantity.minValue) := by
  unfold ModeSwitch.onDragDrop
  by_cases h : origin ≠ s.widgetId
  · simp only [if_pos h]
    exact ⟨fun _ => trivial, fun hc => absurd hc h⟩
  · simp only [if_neg h]
    exact ⟨fun hne => absurd hne h, fun _ => by simp [setValue]⟩

/-- C10 witness: dropping from a foreign widget (id 7) leaves the switch
unchanged; dropping from the switch itself (id 3) cycles 1 to 2. -/
theorem claim10_witness :
    ((7 : Nat) ≠ (⟨3, ⟨1, 0, 3⟩⟩ : ModeSwitch).widgetId ∧
      ModeSwitch.onDragDrop ⟨3, ⟨1, 0, 3⟩⟩ 7 = ⟨3, ⟨1, 0, 3⟩⟩) ∧
    ((3 : Nat) = (⟨3, ⟨1, 0, 3⟩⟩ : ModeSwitch).widgetId ∧
      (ModeSwitch.onDragDrop ⟨3, ⟨1, 0, 3⟩⟩ 3).quantity.value = 2) := by
  refine ⟨⟨by decide, (claim10_mode_switch_drop_origin_only ⟨3, ⟨1, 0, 3⟩⟩ 7).1 (by decide)⟩,
    rfl, ?_⟩
  have h := (claim10_mode_switch_drop_origin_only ⟨3, ⟨1, 0, 3⟩⟩ 3).2 rfl
  rw [h]
  norm_num

end Rack
